import Mathlib

/-!
Shallow embedding of `mpmath/optimization.py` (1-D root finding):
the solver family's constructors and iteration loops, the `findroot`
driver, the `multiplicity` estimator and the `steffensen` accelerator.
The working numeric type is modelled as `ℚ` (exact arbitrary-precision
arithmetic); a Python generator is modelled as a fuel-bounded list of
yielded `(x, error)` pairs, and a `ZeroDivisionError` as `Option`/early
termination exactly where the source catches or guards it.
-/

namespace MpmathOpt

/-- Outcome of a `findroot` call: a returned root, the `ValueError`
raised by the verification step (carrying the residual magnitude and the
tolerance, source lines 705-709), or the unbound-local failure when the
solver sequence yielded no pair at all (the loop variable `x` of line 698
is never bound when line 705 reads it). -/
inductive FindrootOutcome where
  | root (x : ℚ)
  | validationError (residual tol : ℚ)
  | unboundLocal
deriving DecidableEq, Repr

/-- Resolution of the step cap in `findroot` (lines 693-696): the caller's
`maxsteps` keyword if present, otherwise the solver's `maxsteps` attribute. -/
def resolveMaxsteps (override : Option ℕ) (solverDefault : ℕ) : ℕ :=
  override.getD solverDefault

/-- The driver loop of `findroot` (lines 697-704) over the sequence of
`(x, error)` pairs: the counter `i` is incremented for each consumed pair
and the loop breaks at the first pair with `error < tol or i >= maxsteps`.
Returns the Python variable `x` after the loop: `none` when no pair was
ever consumed (x unbound), otherwise the last consumed `x`. -/
def findrootGo (tol : ℚ) (maxsteps : ℕ) : List (ℚ × ℚ) → ℕ → Option ℚ
  | [], _ => none
  | (x, e) :: rest, i =>
    if e < tol ∨ maxsteps ≤ i + 1 then some x
    else
      match findrootGo tol maxsteps rest (i + 1) with
      | none => some x
      | some y => some y

/-- The driver loop started with counter `i = 0`, as in the source. -/
def findrootLoop (tol : ℚ) (maxsteps : ℕ) (pairs : List (ℚ × ℚ)) : Option ℚ :=
  findrootGo tol maxsteps pairs 0

/-- `findroot` (lines 697-710), abstracted over the solver's yielded pair
sequence: run the driver loop, then verify `abs(f(x))**2 > tol` when
`verify` is set, raising `ValueError` with the residual magnitude and the
tolerance; otherwise return `x`. -/
def findroot (f : ℚ → ℚ) (verify : Bool) (tol : ℚ) (maxsteps : ℕ)
    (pairs : List (ℚ × ℚ)) : FindrootOutcome :=
  match findrootLoop tol maxsteps pairs with
  | none => .unboundLocal
  | some x =>
    if verify = true ∧ tol < |f x| ^ 2 then .validationError |f x| tol
    else .root x

/-- `Secant.maxsteps` (line 23). -/
def secantMaxsteps : ℕ := 30

/-- `Secant.__init__` (lines 25-34): 1 starting point gives `x1 = x0 + 0.25`,
2 points are taken as given, any other count raises `ValueError` (modelled
as `none`) before any iteration step is produced. -/
def secantInit (x0 : List ℚ) : Option (ℚ × ℚ) :=
  match x0 with
  | [a] => some (a, a + 1/4)
  | [a, b] => some (a, b)
  | _ => none

/-- `Secant.__iter__` (lines 36-51) with fuel bounding the number of yielded
pairs (the driver consumes at most `maxsteps` of them): each turn computes
`f1 = f(x1)`, `l = x1 - x0`, breaks if `l` is zero, computes the slope
`s = (f1 - f0)/l`, breaks if `s` is zero, else yields
`(x1 - f1/s, abs(l))` and shifts the window. The accumulator satisfies
`f0 = f(x0)` on every call reachable from `secantSteps`. -/
def secantLoop (f : ℚ → ℚ) : ℕ → ℚ → ℚ → ℚ → List (ℚ × ℚ)
  | 0, _, _, _ => []
  | n + 1, x0, x1, f0 =>
    if x1 - x0 = 0 then []
    else if (f x1 - f0) / (x1 - x0) = 0 then []
    else (x1 - f x1 / ((f x1 - f0) / (x1 - x0)), |x1 - x0|) ::
      secantLoop f n x1 (x1 - f x1 / ((f x1 - f0) / (x1 - x0))) (f x1)

/-- The Secant sequence from starting points `x0, x1`, with `f0 = f(x0)`
computed once before the loop as in the source (line 40). -/
def secantSteps (f : ℚ → ℚ) (x0 x1 : ℚ) (n : ℕ) : List (ℚ × ℚ) :=
  secantLoop f n x0 x1 (f x0)

/-- `MNewton.__init__` starting-point validation (lines 70-72):
exactly 1 point, else `ValueError`. -/
def mnewtonInitPoints (x0 : List ℚ) : Option ℚ :=
  match x0 with
  | [a] => some a
  | _ => none

/-- `Halley.__init__` starting-point validation (lines 123-125):
exactly 1 point, else `ValueError`. -/
def halleyInitPoints (x0 : List ℚ) : Option ℚ :=
  match x0 with
  | [a] => some a
  | _ => none

/-- `ANewton.__init__` starting-point validation (lines 439-441):
exactly 1 point, else `ValueError`. -/
def anewtonInitPoints (x0 : List ℚ) : Option ℚ :=
  match x0 with
  | [a] => some a
  | _ => none

/-- `Bisection.__init__` (lines 242-247): exactly 2 points (an interval),
else `ValueError`. -/
def bisectionInitPoints (x0 : List ℚ) : Option (ℚ × ℚ) :=
  match x0 with
  | [a, b] => some (a, b)
  | _ => none

/-- `Illinois.__init__` interval validation (lines 306-310): exactly 2
points, else `ValueError`. -/
def illinoisInitPoints (x0 : List ℚ) : Option (ℚ × ℚ) :=
  match x0 with
  | [a, b] => some (a, b)
  | _ => none

/-- `Ridder.__init__` interval validation (lines 394-399): exactly 2
points, else `ValueError`. -/
def ridderInitPoints (x0 : List ℚ) : Option (ℚ × ℚ) :=
  match x0 with
  | [a, b] => some (a, b)
  | _ => none

/-- `Muller.__init__` (lines 173-188): 1 point gives `x1 = x0 + 0.25` and
`x2 = x1 + 0.25`; 2 points give `x2 = x1 + 0.25`; 3 points taken as given;
any other count raises `ValueError`. -/
def mullerInitPoints (x0 : List ℚ) : Option (ℚ × ℚ × ℚ) :=
  match x0 with
  | [a] => some (a, a + 1/4, a + 1/4 + 1/4)
  | [a, b] => some (a, b, b + 1/4)
  | [a, b, c] => some (a, b, c)
  | _ => none

/-- The solver classes reachable by name through `str2solver` (lines 490-493). -/
inductive SolverTag where
  | secant | mnewton | halley | muller | bisect | illinois | pegasus
  | anderson | ridder | anewton
deriving DecidableEq, Repr

/-- The name dispatch of `findroot` (lines 686-690): look the string up in
`str2solver`; a `KeyError` is turned into `ValueError('could not recognize
solver')`, modelled as `none`. -/
def str2solver (s : String) : Option SolverTag :=
  if s = "secant" then some .secant
  else if s = "mnewton" then some .mnewton
  else if s = "halley" then some .halley
  else if s = "muller" then some .muller
  else if s = "bisect" then some .bisect
  else if s = "illinois" then some .illinois
  else if s = "pegasus" then some .pegasus
  else if s = "anderson" then some .anderson
  else if s = "ridder" then some .ridder
  else if s = "anewton" then some .anewton
  else none

/-- The keys of the `str2solver` dictionary (lines 490-493). -/
def recognizedSolverNames : List String :=
  ["secant", "mnewton", "halley", "muller", "bisect", "illinois",
   "pegasus", "anderson", "ridder", "anewton"]

/-- Resolution of the first derivative in `MNewton.__init__`/`Halley.__init__`
(lines 74-79 and 127-132): the supplied `df` keyword if present, otherwise
numeric differentiation `diff(f, x)` of `f` (`D` stands for the external
`diff` collaborator applied to a function). -/
def resolveDf (f : ℚ → ℚ) (D : (ℚ → ℚ) → ℚ → ℚ) (kwDf : Option (ℚ → ℚ)) :
    ℚ → ℚ :=
  match kwDf with
  | none => fun x => D f x
  | some g => g

/-- Resolution of the second derivative in `MNewton.__init__` (lines 80-85),
transcribed exactly: when `d2f` is not in `kwargs`, numeric differentiation
of the resolved `df`; when `d2f` IS in `kwargs` the source executes
`d2f = kwargs['df']` — it reads the `df` keyword, so a supplied `d2f` is
never used, and when `df` was not supplied the lookup raises `KeyError`
(modelled as `Except.error ()`). -/
def mnewtonD2f (f : ℚ → ℚ) (D : (ℚ → ℚ) → ℚ → ℚ)
    (kwDf kwD2f : Option (ℚ → ℚ)) : Except Unit (ℚ → ℚ) :=
  let df := resolveDf f D kwDf
  match kwD2f with
  | none => .ok (fun x => D df x)
  | some _ =>
    match kwDf with
    | some g => .ok g
    | none => .error ()

/-- Resolution of the second derivative in `Halley.__init__` (lines 133-138),
textually identical to the `MNewton` one including `d2f = kwargs['df']`. -/
def halleyD2f (f : ℚ → ℚ) (D : (ℚ → ℚ) → ℚ → ℚ)
    (kwDf kwD2f : Option (ℚ → ℚ)) : Except Unit (ℚ → ℚ) :=
  let df := resolveDf f D kwDf
  match kwD2f with
  | none => .ok (fun x => D df x)
  | some _ =>
    match kwDf with
    | some g => .ok g
    | none => .error ()

/-- `steffensen` (lines 808-812) lifted to maps that may raise
`ZeroDivisionError` (`none`): `F(x) = (x*f(f(x)) - f(x)^2)/(f(f(x)) - 2*f(x) + x)`,
where a zero denominator raises (propagates as `none`). -/
def steffensen (f : ℚ → Option ℚ) : ℚ → Option ℚ := fun x =>
  match f x with
  | none => none
  | some fx =>
    match f fx with
    | none => none
    | some ffx =>
      if ffx - 2 * fx + x = 0 then none
      else some ((x * ffx - fx ^ 2) / (ffx - 2 * fx + x))

/-- The map `phi(x) = x - f(x)/df(x)` built by `ANewton.__init__`
(lines 449-451); division by a zero derivative raises `ZeroDivisionError`
(`none`), which the iteration catches. -/
def newtonPhi (f df : ℚ → ℚ) : ℚ → Option ℚ := fun x =>
  if df x = 0 then none else some (x - f x / df x)

/-- The mutable state of `ANewton.__iter__` (lines 454-482): the current
iterate `x0`, the current iteration map `phi` (replaced by its Steffensen
acceleration when the stall counter reaches 3), the previous `error` and
the stall `counter`. -/
structure ANewtonState where
  x0 : ℚ
  phi : ℚ → Option ℚ
  error : ℚ
  counter : ℕ

/-- The state at the top of `ANewton.__iter__`: `error = 0`, `counter = 0`,
iteration map `phi` from the constructor. -/
def anewtonInit (f df : ℚ → ℚ) (x0 : ℚ) : ANewtonState :=
  ANewtonState.mk x0 (newtonPhi f df) 0 0

/-- What one turn of the `ANewton` loop exposes: the yielded pair `(x, error)`,
whether the slow-convergence branch (`error and abs(error - preverror)/error < 1`,
line 472) was taken, and whether the acceleration branch (`counter >= 3`,
line 476, with the `print 'accelerating convergence'` trace) was taken. -/
structure ANewtonObs where
  x : ℚ
  error : ℚ
  stalled : Bool
  accelerated : Bool
deriving DecidableEq, Repr

/-- The slow-convergence test of line 472: `error and
abs(error - preverror) / error < 1` (the truthiness guard on `error`
short-circuits the division). -/
def anewtonStalled (preverror error : ℚ) : Bool :=
  decide (error ≠ 0 ∧ |error - preverror| / error < 1)

/-- One turn of the `ANewton.__iter__` loop (lines 461-482): apply `phi`
(a `ZeroDivisionError` breaks the loop, yielding nothing), compute the new
error, increment `counter` on the slow-convergence test, and when
`counter >= 3` replace `phi` by `steffensen(phi)` and reset the counter;
then yield `(x0, error)`. -/
def anewtonStep (s : ANewtonState) : Option (ANewtonObs × ANewtonState) :=
  match s.phi s.x0 with
  | none => none
  | some x1 =>
    let error := |s.x0 - x1|
    let stalled := anewtonStalled s.error error
    let counter := if stalled then s.counter + 1 else s.counter
    let accelerated := decide (3 ≤ counter)
    some (ANewtonObs.mk x1 error stalled accelerated,
      ANewtonState.mk x1 (if accelerated then steffensen s.phi else s.phi)
        error (if accelerated then 0 else counter))

/-- The first `n` turns of the `ANewton` loop (the loop is infinite except
for the `ZeroDivisionError` break). -/
def anewtonRun (s : ANewtonState) : ℕ → List ANewtonObs
  | 0 => []
  | n + 1 =>
    match anewtonStep s with
    | none => []
    | some (obs, s2) => obs :: anewtonRun s2 n

/-- A concrete iteration map used to exercise the `ANewton` loop on the
trajectory `0 ↦ 1 ↦ 19/10 ↦ 27/10 ↦ 3 ↦ 329/100`, raising
`ZeroDivisionError` (`none`) elsewhere. -/
def phiCE : ℚ → Option ℚ := fun x =>
  if x = 0 then some 1
  else if x = 1 then some (19/10)
  else if x = 19/10 then some (27/10)
  else if x = 27/10 then some 3
  else if x = 3 then some (329/100)
  else none

/-- Specification predicate for the acceleration trigger, following the
amended reading of the spec: along a trace, a cumulative stall counter is
incremented on every stalled step (it is NOT reset by non-stalled steps),
acceleration fires exactly when it reaches 3, and only then does the
counter restart (so acceleration can be re-triggered). -/
def accelCounterSpec : ℕ → List ANewtonObs → Prop
  | _, [] => True
  | c, obs :: rest =>
    obs.accelerated = decide (3 ≤ (if obs.stalled then c + 1 else c)) ∧
    accelCounterSpec
      (if 3 ≤ (if obs.stalled then c + 1 else c) then 0
       else (if obs.stalled then c + 1 else c)) rest

/-- The derivative used by `multiplicity` at order `i` (lines 725-731):
order 0 is `f` itself (the source overwrites `kwargs['d0f'] = f`); at
higher orders the supplied `d\<i\>f` keyword when present, otherwise the
numeric derivative `diff(f, x, i)` (abstracted as `D i`). -/
def multiplicityDeriv (f : ℚ → ℚ) (D : ℕ → ℚ → ℚ)
    (ov : ℕ → Option (ℚ → ℚ)) : ℕ → ℚ → ℚ
  | 0 => f
  | i + 1 =>
    match ov (i + 1) with
    | some g => g
    | none => D (i + 1)

/-- The `for i in xrange(maxsteps)` loop of `multiplicity` (lines 726-733):
`i` is the current order, `fuel` the remaining iterations including the
current one; break (returning `i`) at the first order whose derivative
magnitude is not below `tol`; if the loop exhausts, the loop variable is
left at its final value. -/
def multGo (d : ℕ → ℚ → ℚ) (root tol : ℚ) : ℕ → ℕ → ℕ
  | i, 0 => i
  | i, fuel + 1 =>
    if ¬ |d i root| < tol then i
    else if fuel = 0 then i
    else multGo d root tol (i + 1) fuel

/-- `multiplicity` (lines 712-734): runs the order loop from `i = 0`; with
`maxsteps = 0` the `return i` statement reads an unbound loop variable
(`none`). -/
def multiplicity (f : ℚ → ℚ) (root tol : ℚ) (maxsteps : ℕ)
    (D : ℕ → ℚ → ℚ) (ov : ℕ → Option (ℚ → ℚ)) : Option ℕ :=
  if maxsteps = 0 then none
  else some (multGo (multiplicityDeriv f D ov) root tol 0 maxsteps)

/-- A Python value handed to `findroot` as a starting point: a plain value
(e.g. `int`) or a value already of the working arbitrary-precision type. -/
inductive PyVal where
  | pyint (n : ℤ)
  | mpf (q : ℚ)
deriving DecidableEq, Repr

/-- Modelled from the spec: `convert_lossless` (imported from `mptypes`,
which is not under src/) "projects plain values into the working numeric
type" — a plain integer becomes the equal working-type value, a
working-type value is unchanged. -/
def convert_lossless : PyVal → PyVal
  | .pyint n => .mpf n
  | .mpf q => .mpf q

/-- The default value of the `force_type` parameter of `findroot`
(line 497): `convert_lossless`. `none` models passing a falsy value such
as Python `None`. -/
def findrootForceTypeArgDefault : Option (PyVal → PyVal) :=
  some convert_lossless

/-- Lines 672-673 of `findroot`: `if not force_type: force_type = lambda x: x`
— the identity is substituted only for a falsy argument. -/
def resolveForceType : Option (PyVal → PyVal) → (PyVal → PyVal)
  | none => fun x => x
  | some g => g

/-- Lines 682-685 of `findroot`: the normalized starting values, each passed
through the resolved `force_type`, as handed to the solver constructor. -/
def findrootStartingValues (ft : Option (PyVal → PyVal)) (x0 : List PyVal) :
    List PyVal :=
  x0.map (resolveForceType ft)

/-- Modelled from the spec: the machine epsilon `eps` of the working type at
precision `p` (from `mptypes`, not under src/), "derived from the working
type's machine epsilon". -/
def epsQ (p : ℕ) : ℚ := (1 / 2) ^ p

/-- A whole `findroot` call threaded through the ambient precision state:
the `@extraprec(20)` decorator (line 495) elevates the working precision by
20 guard digits for the duration of the call and restores it afterwards;
the default tolerance (lines 679-680) is `eps * 2**10` at the working
precision. The call returns the outcome together with the ambient
precision left behind for the next call. -/
def findrootCall (p : ℕ) (f : ℚ → ℚ) (verify : Bool) (tolArg : Option ℚ)
    (msOverride : Option ℕ) (solverDefault : ℕ) (pairs : List (ℚ × ℚ)) :
    FindrootOutcome × ℕ :=
  (findroot f verify (tolArg.getD (epsQ (p + 20) * 2 ^ 10))
    (resolveMaxsteps msOverride solverDefault) pairs, p)

/-!  Theorems  -/

/-- C4: the Secant solver computes each next iterate as
`x_{n+1} = x1 - f(x1)*(x1-x0)/(f(x1)-f(x0))` from the two most recent
iterates, and the sequence ends silently (no further pairs, no exception)
exactly when the step length `x1 - x0` or the secant slope
`(f(x1)-f(x0))/(x1-x0)` is exactly zero; in particular for any constant
function the sequence terminates at once without a zero-division error. -/
theorem secant_update_rule_and_silent_stop :
    (∀ (f : ℚ → ℚ) (x0 x1 : ℚ) (n : ℕ),
      secantSteps f x0 x1 n = secantLoop f n x0 x1 (f x0)) ∧
    (∀ (f : ℚ → ℚ) (n : ℕ) (x0 x1 : ℚ),
      secantLoop f (n + 1) x0 x1 (f x0) =
        if x1 - x0 = 0 ∨ (f x1 - f x0) / (x1 - x0) = 0 then []
        else (x1 - f x1 * (x1 - x0) / (f x1 - f x0), |x1 - x0|) ::
          secantLoop f n x1 (x1 - f x1 * (x1 - x0) / (f x1 - f x0)) (f x1)) ∧
    (∀ (c : ℚ) (x0 x1 : ℚ) (n : ℕ), secantSteps (fun _ => c) x0 x1 n = []) := by
  refine ⟨fun f x0 x1 n => rfl, ?_, ?_⟩
  · intro f n x0 x1
    by_cases h1 : x1 - x0 = 0
    · rw [if_pos (Or.inl h1)]
      simp only [secantLoop, if_pos h1]
    · by_cases h2 : (f x1 - f x0) / (x1 - x0) = 0
      · rw [if_pos (Or.inr h2)]
        simp only [secantLoop, if_neg h1, if_pos h2]
      · rw [if_neg (by tauto)]
        simp only [secantLoop, if_neg h1, if_neg h2]
        rw [div_div_eq_mul_div]
  · intro c x0 x1 n
    cases n with
    | zero => rfl
    | succ n =>
      simp only [secantSteps, secantLoop, sub_self, zero_div]
      split_ifs <;> simp

/-- C5 (code bug): `MNewton.__init__` and `Halley.__init__` never use a
supplied `d2f`: with both `df` and `d2f` supplied, the resolved second
derivative is the supplied `df` (here `3x^2`, which disagrees with the
supplied `d2f = 6x` at `x = 1`), and supplying `d2f` without `df` raises
`KeyError`, contradicting the documented meaning of the `d2f` keyword
("second derivative of f"). -/
theorem mnewton_halley_d2f_ignores_supplied :
    mnewtonD2f (fun x => x ^ 3) (fun g x => g x)
        (some (fun x => 3 * x ^ 2)) (some (fun x => 6 * x)) =
      Except.ok (fun x : ℚ => 3 * x ^ 2) ∧
    halleyD2f (fun x => x ^ 3) (fun g x => g x)
        (some (fun x => 3 * x ^ 2)) (some (fun x => 6 * x)) =
      Except.ok (fun x : ℚ => 3 * x ^ 2) ∧
    (fun x : ℚ => 3 * x ^ 2) 1 = 3 ∧ (fun x : ℚ => 6 * x) 1 = 6 ∧
    (3 : ℚ) ≠ 6 ∧
    mnewtonD2f (fun x => x ^ 3) (fun g x => g x)
        none (some (fun x => 6 * x)) = Except.error () := by
  refine ⟨rfl, rfl, by norm_num, by norm_num, by norm_num, rfl⟩

/-- C6 (counterexample): with the default `force_type` (not supplied by the
caller), the starting value `int 1` is NOT passed through unchanged to the
solver constructor — it is converted to the working type, so the default
coercion is not the identity. -/
theorem findroot_default_coercion_not_identity :
    findrootStartingValues findrootForceTypeArgDefault [PyVal.pyint 1] =
      [PyVal.mpf 1] ∧
    PyVal.mpf 1 ≠ PyVal.pyint 1 :=
  ⟨rfl, by decide⟩

/-- C6 (amended): the default of the `force_type` parameter is
`convert_lossless`, which projects each starting value losslessly into the
working numeric type (a working-type value is unchanged, a plain integer
becomes the equal working-type value); the identity coercion is applied
exactly when the caller explicitly passes a falsy `force_type` (e.g.
`None`), and each starting value is passed through the resolved coercion. -/
theorem findroot_coercion_resolution :
    resolveForceType none = (fun x : PyVal => x) ∧
    findrootForceTypeArgDefault = some convert_lossless ∧
    (∀ n : ℤ, convert_lossless (PyVal.pyint n) = PyVal.mpf n) ∧
    (∀ q : ℚ, convert_lossless (PyVal.mpf q) = PyVal.mpf q) ∧
    (∀ ft x0, findrootStartingValues ft x0 = x0.map (resolveForceType ft)) :=
  ⟨rfl, rfl, fun _ => rfl, fun _ => rfl, fun _ _ => rfl⟩

/-- C9: `findroot` is deterministic and carries no hidden state across
invocations: a call leaves the ambient precision exactly as it found it
(the `extraprec` elevation is scoped to the call), and a second call with
identical arguments, made in the state the first call left behind, returns
an identical result. -/
theorem findroot_repeat_identical (p : ℕ) (f : ℚ → ℚ) (verify : Bool)
    (tolArg : Option ℚ) (msOverride : Option ℕ) (solverDefault : ℕ)
    (pairs : List (ℚ × ℚ)) :
    (findrootCall p f verify tolArg msOverride solverDefault pairs).2 = p ∧
    findrootCall (findrootCall p f verify tolArg msOverride solverDefault
        pairs).2 f verify tolArg msOverride solverDefault pairs =
      findrootCall p f verify tolArg msOverride solverDefault pairs :=
  ⟨rfl, rfl⟩

/-- C10: Secant constructed with two equal starting points passes
construction, but its sequence yields no pair at all (the first step length
is zero), and `findroot` on such an empty sequence reaches the verification
and return statements with the loop variable never bound: the call ends as
an unbound-local failure, not as a returned root nor as a documented
configuration/validation error. -/
theorem findroot_empty_sequence_unbound (f : ℚ → ℚ) (a tol : ℚ)
    (verify : Bool) (msOverride : Option ℕ) (n : ℕ) :
    secantInit [a, a] = some (a, a) ∧
    secantSteps f a a n = [] ∧
    findroot f verify tol (resolveMaxsteps msOverride secantMaxsteps)
      (secantSteps f a a (resolveMaxsteps msOverride secantMaxsteps)) =
      FindrootOutcome.unboundLocal := by
  have hempty : ∀ m : ℕ, secantSteps f a a m = [] := by
    intro m
    cases m with
    | zero => rfl
    | succ m => simp [secantSteps, secantLoop]
  refine ⟨rfl, hempty n, ?_⟩
  rw [hempty]
  rfl

/-- C3: every solver's constructor accepts exactly the advertised starting
cardinalities and raises `ValueError` (here: returns `none`) for every
other cardinality, at construction time and before any iteration step is
produced (the iteration functions are only defined on successfully
constructed data); and `findroot`'s name dispatch succeeds exactly on the
recognized solver names. -/
theorem solver_wrong_arity_and_unknown_name :
    (∀ l : List ℚ, (secantInit l).isSome ↔ (l.length = 1 ∨ l.length = 2)) ∧
    (∀ l : List ℚ, (mnewtonInitPoints l).isSome ↔ l.length = 1) ∧
    (∀ l : List ℚ, (halleyInitPoints l).isSome ↔ l.length = 1) ∧
    (∀ l : List ℚ, (anewtonInitPoints l).isSome ↔ l.length = 1) ∧
    (∀ l : List ℚ, (bisectionInitPoints l).isSome ↔ l.length = 2) ∧
    (∀ l : List ℚ, (illinoisInitPoints l).isSome ↔ l.length = 2) ∧
    (∀ l : List ℚ, (ridderInitPoints l).isSome ↔ l.length = 2) ∧
    (∀ l : List ℚ,
      (mullerInitPoints l).isSome ↔
        (l.length = 1 ∨ l.length = 2 ∨ l.length = 3)) ∧
    (∀ s : String, (str2solver s).isSome ↔ s ∈ recognizedSolverNames) := by
  refine ⟨?_, ?_, ?_, ?_, ?_, ?_, ?_, ?_, ?_⟩
  · intro l
    rcases l with _ | ⟨a, _ | ⟨b, _ | ⟨c, t⟩⟩⟩ <;> simp [secantInit]
  · intro l
    rcases l with _ | ⟨a, _ | ⟨b, t⟩⟩ <;> simp [mnewtonInitPoints]
  · intro l
    rcases l with _ | ⟨a, _ | ⟨b, t⟩⟩ <;> simp [halleyInitPoints]
  · intro l
    rcases l with _ | ⟨a, _ | ⟨b, t⟩⟩ <;> simp [anewtonInitPoints]
  · intro l
    rcases l with _ | ⟨a, _ | ⟨b, _ | ⟨c, t⟩⟩⟩ <;> simp [bisectionInitPoints]
  · intro l
    rcases l with _ | ⟨a, _ | ⟨b, _ | ⟨c, t⟩⟩⟩ <;> simp [illinoisInitPoints]
  · intro l
    rcases l with _ | ⟨a, _ | ⟨b, _ | ⟨c, t⟩⟩⟩ <;> simp [ridderInitPoints]
  · intro l
    rcases l with _ | ⟨a, _ | ⟨b, _ | ⟨c, _ | ⟨d, t⟩⟩⟩⟩ <;>
      simp [mullerInitPoints]
  · intro s
    simp only [recognizedSolverNames, List.mem_cons, List.not_mem_nil,
      or_false, str2solver]
    split_ifs <;> simp_all

/-- Helper: the driver loop started with counter `i` returns the `x` of the
first pair (at 0-based offset `j`) satisfying the break condition
`error < tol or i + j + 1 >= maxsteps`, when such a pair exists. -/
theorem findrootGo_eq_some (tol : ℚ) (ms : ℕ) :
    ∀ (pairs : List (ℚ × ℚ)) (i j : ℕ), j < pairs.length →
      ((pairs.getD j (0, 0)).2 < tol ∨ ms ≤ i + j + 1) →
      (∀ k, k < j → ¬((pairs.getD k (0, 0)).2 < tol ∨ ms ≤ i + k + 1)) →
      findrootGo tol ms pairs i = some (pairs.getD j (0, 0)).1 := by
  intro pairs
  induction pairs with
  | nil =>
    intro i j hj
    simp at hj
  | cons p rest ih =>
    intro i j hj hcond hleast
    obtain ⟨x, e⟩ := p
    cases j with
    | zero =>
      simp only [List.getD_cons_zero] at hcond ⊢
      simp only [findrootGo, if_pos hcond]
    | succ j =>
      have hhead : ¬(e < tol ∨ ms ≤ i + 1) := by
        intro hor
        exact hleast 0 (Nat.succ_pos j) (by simpa using hor)
      have hrec : findrootGo tol ms rest (i + 1) =
          some (rest.getD j (0, 0)).1 := by
        apply ih (i + 1) j
        · simpa [Nat.succ_lt_succ_iff] using hj
        · have : i + 1 + j + 1 = i + (j + 1) + 1 := by omega
          rw [this]
          simpa using hcond
        · intro k hk
          have := hleast (k + 1) (by omega)
          have harith : i + (k + 1) + 1 = i + 1 + k + 1 := by omega
          rw [harith] at this
          simpa using this
      simp only [findrootGo, hrec, List.getD_cons_succ]
      rw [if_neg hhead]

/-- C1: the driver loop of `findroot` stops at the first yielded pair whose
error is below the tolerance or at which the number of consumed pairs
reaches the resolved maximum step count (the caller's `maxsteps` override
if given, otherwise the solver's declared `maxsteps` attribute), and
returns that pair's `x` as the located root (verification disabled). -/
theorem findroot_stops_at_first_threshold (f : ℚ → ℚ) (tol : ℚ)
    (msOverride : Option ℕ) (solverDefault : ℕ) (pairs : List (ℚ × ℚ))
    (h1 : 1 ≤ resolveMaxsteps msOverride solverDefault)
    (h2 : resolveMaxsteps msOverride solverDefault ≤ pairs.length) :
    ∃ j, j < pairs.length ∧
      ((pairs.getD j (0, 0)).2 < tol ∨
        resolveMaxsteps msOverride solverDefault ≤ j + 1) ∧
      (∀ k, k < j → ¬((pairs.getD k (0, 0)).2 < tol ∨
        resolveMaxsteps msOverride solverDefault ≤ k + 1)) ∧
      findroot f false tol (resolveMaxsteps msOverride solverDefault) pairs =
        FindrootOutcome.root (pairs.getD j (0, 0)).1 := by
  set ms := resolveMaxsteps msOverride solverDefault with hms
  have hex : ∃ k, (pairs.getD k (0, 0)).2 < tol ∨ ms ≤ k + 1 :=
    ⟨ms - 1, Or.inr (by omega)⟩
  have hjle : Nat.find hex ≤ ms - 1 := Nat.find_min' hex (Or.inr (by omega))
  have hjlt : Nat.find hex < pairs.length := by omega
  refine ⟨Nat.find hex, hjlt, Nat.find_spec hex, ?_, ?_⟩
  · intro k hk
    exact Nat.find_min hex hk
  · have hgo : findrootGo tol ms pairs 0 =
        some (pairs.getD (Nat.find hex) (0, 0)).1 := by
      apply findrootGo_eq_some tol ms pairs 0 (Nat.find hex) hjlt
      · have := Nat.find_spec hex
        simpa using this
      · intro k hk
        have := Nat.find_min hex hk
        simpa using this
    show findroot f false tol ms pairs = _
    unfold findroot findrootLoop
    rw [hgo]
    simp

/-- C1 witness: with a one-element sequence `[(5, 0)]`, tolerance `1` and a
caller `maxsteps` override of `1`, the driver stops at that first pair and
returns `5`. -/
theorem findroot_stops_witness :
    findroot (fun x => x) false 1 (resolveMaxsteps (some 1) secantMaxsteps)
      [((5 : ℚ), 0)] = FindrootOutcome.root 5 := by
  obtain ⟨j, hj, hstop, hleast, heq⟩ :=
    findroot_stops_at_first_threshold (fun x => x) 1 (some 1) secantMaxsteps
      [((5 : ℚ), 0)] (by decide) (by decide)
  have hj0 : j = 0 := by
    simpa using hj
  rw [hj0] at heq
  simpa using heq

/-- C2: after the driver loop stops at `x`, `findroot` raises the
validation `ValueError` — carrying the residual magnitude `abs(f(x))` and
the tolerance — if and only if verification was not disabled and
`abs(f(x))**2 > tol`; when verification is disabled or the squared residual
is within `tol`, it returns `x` without raising. -/
theorem findroot_verification_residual (f : ℚ → ℚ) (verify : Bool)
    (tol : ℚ) (ms : ℕ) (pairs : List (ℚ × ℚ)) (x : ℚ)
    (h : findrootLoop tol ms pairs = some x) :
    (findroot f verify tol ms pairs = FindrootOutcome.validationError |f x| tol
      ↔ (verify = true ∧ tol < |f x| ^ 2)) ∧
    ((verify = false ∨ |f x| ^ 2 ≤ tol) →
      findroot f verify tol ms pairs = FindrootOutcome.root x) := by
  have hfr : findroot f verify tol ms pairs =
      if verify = true ∧ tol < |f x| ^ 2 then
        FindrootOutcome.validationError |f x| tol
      else FindrootOutcome.root x := by
    unfold findroot
    rw [h]
  constructor
  · rw [hfr]
    constructor
    · intro heq
      by_contra hc
      rw [if_neg hc] at heq
      exact FindrootOutcome.noConfusion heq
    · intro hc
      rw [if_pos hc]
  · intro hd
    rw [hfr, if_neg]
    rintro ⟨hv, hlt⟩
    rcases hd with hd | hd
    · rw [hd] at hv
      exact Bool.noConfusion hv
    · exact absurd hlt (not_lt.mpr hd)

/-- C2 witness: for `f = id`, sequence `[(5, 0)]`, tolerance `1` and
verification on, the loop stops at `x = 5` and `findroot` raises the
validation error carrying residual `5` and tolerance `1`. -/
theorem findroot_verification_witness :
    findroot (fun x => x) true 1 1 [((5 : ℚ), 0)] =
      FindrootOutcome.validationError 5 1 := by
  have h := (findroot_verification_residual (fun x => x) true 1 1
    [((5 : ℚ), 0)] 5 (by decide)).1.mpr ⟨rfl, by norm_num⟩
  simpa using h

/-- C7 (counterexample): on the concrete trajectory driven by `phiCE` from
`x0 = 0`, the `ANewton` loop marks steps 2, 3 and 5 as stalled (step 4 is
not stalled) yet fires the Steffensen acceleration at step 5 — so the
acceleration is NOT triggered "exactly when the relative error-reduction
has stalled for 3 consecutive steps": the three stalled steps counted here
are not consecutive, and under the consecutive reading step 5 would not
accelerate. -/
theorem anewton_accel_without_consecutive_stalls :
    (anewtonRun (ANewtonState.mk 0 phiCE 0 0) 5).map ANewtonObs.stalled =
      [false, true, true, false, true] ∧
    (anewtonRun (ANewtonState.mk 0 phiCE 0 0) 5).map ANewtonObs.accelerated =
      [false, false, false, false, true] := by
  constructor <;>
    norm_num [anewtonRun, anewtonStep, anewtonStalled, phiCE, abs, max_def]

/-- C7 (amended): the `ANewton` solver applies the Newton map
`phi(x) = x - f(x)/df(x)` from its constructor; a `ZeroDivisionError`
raised while applying the current map silently ends the sequence; and the
Steffensen-accelerated replacement of the iteration map is triggered
exactly when the cumulative stall counter — incremented on every step whose
relative error-reduction stalls, and reset only when acceleration fires, so
the stalled steps need not be consecutive — reaches 3, after which the
counter restarts and acceleration can be re-triggered. -/
theorem anewton_newton_map_and_stall_counter :
    (∀ (f df : ℚ → ℚ) (x0 : ℚ),
      anewtonInit f df x0 = ANewtonState.mk x0 (newtonPhi f df) 0 0) ∧
    (∀ (f df : ℚ → ℚ) (x : ℚ),
      newtonPhi f df x = if df x = 0 then none else some (x - f x / df x)) ∧
    (∀ (s : ANewtonState) (n : ℕ),
      s.phi s.x0 = none → anewtonRun s (n + 1) = []) ∧
    (∀ (n : ℕ) (s : ANewtonState),
      accelCounterSpec s.counter (anewtonRun s n)) := by
  refine ⟨fun f df x0 => rfl, fun f df x => rfl, ?_, ?_⟩
  · intro s n h
    simp [anewtonRun, anewtonStep, h]
  · intro n
    induction n with
    | zero =>
      intro s
      simp [anewtonRun, accelCounterSpec]
    | succ n ih =>
      intro s
      cases hp : s.phi s.x0 with
      | none =>
        simp [anewtonRun, anewtonStep, hp, accelCounterSpec]
      | some x1 =>
        have hstep : anewtonRun s (n + 1) =
            ANewtonObs.mk x1 (|s.x0 - x1|)
                (anewtonStalled s.error (|s.x0 - x1|))
                (decide (3 ≤ (if anewtonStalled s.error (|s.x0 - x1|) then
                  s.counter + 1 else s.counter))) ::
              anewtonRun (ANewtonState.mk x1
                (if decide (3 ≤ (if anewtonStalled s.error (|s.x0 - x1|) then
                    s.counter + 1 else s.counter)) then steffensen s.phi
                  else s.phi)
                (|s.x0 - x1|)
                (if decide (3 ≤ (if anewtonStalled s.error (|s.x0 - x1|) then
                    s.counter + 1 else s.counter)) then 0
                  else (if anewtonStalled s.error (|s.x0 - x1|) then
                    s.counter + 1 else s.counter))) n := by
          simp only [anewtonRun, anewtonStep, hp]
        rw [hstep]
        refine ⟨rfl, ?_⟩
        have := ih (ANewtonState.mk x1
          (if decide (3 ≤ (if anewtonStalled s.error (|s.x0 - x1|) then
              s.counter + 1 else s.counter)) then steffensen s.phi
            else s.phi)
          (|s.x0 - x1|)
          (if decide (3 ≤ (if anewtonStalled s.error (|s.x0 - x1|) then
              s.counter + 1 else s.counter)) then 0
            else (if anewtonStalled s.error (|s.x0 - x1|) then
              s.counter + 1 else s.counter)))
        simpa [decide_eq_true_eq] using this

/-- C7 witness: applying the map ends the sequence when it raises
`ZeroDivisionError` — at `x0 = 5` the map `phiCE` raises, and the `ANewton`
run yields no pair. -/
theorem anewton_zero_division_witness :
    anewtonRun (ANewtonState.mk 5 phiCE 0 0) 3 = [] :=
  anewton_newton_map_and_stall_counter.2.2.1 (ANewtonState.mk 5 phiCE 0 0) 2
    (by norm_num [phiCE])

/-- Helper: the `multiplicity` order loop returns the first order at which
the derivative magnitude is not below the tolerance, when that order lies
within the remaining fuel. -/
theorem multGo_break (d : ℕ → ℚ → ℚ) (root tol : ℚ) :
    ∀ (fuel start i : ℕ), start ≤ i → i < start + fuel →
      ¬ |d i root| < tol →
      (∀ k, start ≤ k → k < i → |d k root| < tol) →
      multGo d root tol start fuel = i := by
  intro fuel
  induction fuel with
  | zero =>
    intro start i h1 h2
    omega
  | succ n ih =>
    intro start i h1 h2 h3 h4
    by_cases hs : start = i
    · subst hs
      simp only [multGo]
      rw [if_pos h3]
    · have hlt : start < i := by omega
      have hds : |d start root| < tol := h4 start le_rfl hlt
      simp only [multGo]
      rw [if_neg (by simpa using hds)]
      have hn : n ≠ 0 := by omega
      rw [if_neg hn]
      exact ih (start + 1) i (by omega) (by omega) h3
        (fun k hk1 hk2 => h4 k (by omega) hk2)

/-- Helper: when every order within the fuel has derivative magnitude below
the tolerance, the `multiplicity` order loop exhausts and the loop variable
is left at the final order. -/
theorem multGo_exhaust (d : ℕ → ℚ → ℚ) (root tol : ℚ) :
    ∀ (fuel start : ℕ), 1 ≤ fuel →
      (∀ k, start ≤ k → k < start + fuel → |d k root| < tol) →
      multGo d root tol start fuel = start + fuel - 1 := by
  intro fuel
  induction fuel with
  | zero =>
    intro start h1
    omega
  | succ n ih =>
    intro start h1 h2
    have hd : |d start root| < tol := h2 start le_rfl (by omega)
    simp only [multGo]
    rw [if_neg (by simpa using hd)]
    by_cases hn : n = 0
    · subst hn
      rw [if_pos rfl]
      omega
    · rw [if_neg hn]
      have := ih (start + 1) (by omega)
        (fun k hk1 hk2 => h2 k (by omega) (by omega))
      rw [this]
      omega

/-- C8: for `maxsteps >= 1`, `multiplicity` returns the smallest order `i`
in `0..maxsteps-1` whose derivative magnitude at the root (order 0 being
`f` itself, higher orders the supplied override when configured and numeric
differentiation otherwise) is not below `tol`; when no such order exists it
returns the maximum order reached, `maxsteps - 1`, rather than raising. -/
theorem multiplicity_first_nonsmall_derivative (f : ℚ → ℚ)
    (D : ℕ → ℚ → ℚ) (ov : ℕ → Option (ℚ → ℚ)) (root tol : ℚ)
    (maxsteps : ℕ) (h : 1 ≤ maxsteps) :
    (∀ i, i < maxsteps → ¬ |multiplicityDeriv f D ov i root| < tol →
      (∀ k, k < i → |multiplicityDeriv f D ov k root| < tol) →
      multiplicity f root tol maxsteps D ov = some i) ∧
    ((∀ i, i < maxsteps → |multiplicityDeriv f D ov i root| < tol) →
      multiplicity f root tol maxsteps D ov = some (maxsteps - 1)) := by
  have hms : ¬ maxsteps = 0 := by omega
  constructor
  · intro i hi hbig hsmall
    unfold multiplicity
    rw [if_neg hms]
    congr 1
    exact multGo_break (multiplicityDeriv f D ov) root tol maxsteps 0 i
      (Nat.zero_le i) (by omega) hbig (fun k _ hk2 => hsmall k hk2)
  · intro hall
    unfold multiplicity
    rw [if_neg hms]
    congr 1
    have := multGo_exhaust (multiplicityDeriv f D ov) root tol maxsteps 0 h
      (fun k _ hk2 => hall k (by omega))
    rw [this]
    omega

/-- C8 witness: with `f = 0`, no overrides, and numeric derivatives that are
`0` at orders 0 and 1 and `1` at order 2, tolerance `1/2` and `maxsteps = 5`,
the returned multiplicity is the first order `2` whose derivative magnitude
is not below the tolerance. -/
theorem multiplicity_witness :
    multiplicity (fun _ : ℚ => 0) 0 (1 / 2) 5
      (fun i _ => if i = 2 then 1 else 0) (fun _ => none) = some 2 :=
  (multiplicity_first_nonsmall_derivative (fun _ : ℚ => 0)
    (fun i _ => if i = 2 then 1 else 0) (fun _ => none) 0 (1 / 2) 5
    (by norm_num)).1 2 (by norm_num)
    (by norm_num [multiplicityDeriv, abs, max_def])
    (by
      intro k hk
      interval_cases k <;> norm_num [multiplicityDeriv, abs, max_def])

end MpmathOpt
